import Mathlib

/-!
Verification development for the miniapp client: the streaming frame reader
(`apiStream` of the API client), the chat store (`appendToLast`,
`finishStreaming`, `updateRating`, `prependMessages`), the chat page turn
handler (`handleSend`) and the audit page turn handler (`handleAudit`).
Strings coming over the wire are modelled as `String`/`List Char`; the host
primitives `JSON.parse` and `String.prototype.trim` are modelled explicitly
(`parse` parameters, `jsTrim`).
-/

set_option maxRecDepth 16000

namespace Lobanovo

/-- Message roles of the chat store (`role: "user" | "assistant"`). -/
inductive Role where
  | user
  | assistant
deriving DecidableEq, Repr

/-- The `ChatMsg` record of the chat store: `id?` (server id, absent while
streaming), `role`, `content`, `rating?`, `created_at?`, `isStreaming?`.
An absent boolean flag behaves as `false` in every truthiness test of the
source, so `isStreaming` is a plain `Bool` defaulting to `false`. -/
structure ChatMsg where
  id : Option Nat := none
  role : Role
  content : String := ""
  rating : Option Int := none
  created_at : Option String := none
  isStreaming : Bool := false
deriving DecidableEq, Repr

/-- `addMessage`: appends one message to the list. -/
def addMessage (msgs : List ChatMsg) (msg : ChatMsg) : List ChatMsg :=
  msgs ++ [msg]

/-- `appendToLast`: when the last message exists and has `role === "assistant"`,
it is replaced by a copy whose `content` is extended by `content`; otherwise
the list is unchanged.  The recursion walks to the final element, matching the
`msgs[msgs.length - 1]` update of the source. -/
def appendToLast (content : String) : List ChatMsg → List ChatMsg
  | [] => []
  | [last] =>
    if last.role = Role.assistant then
      [{ last with content := last.content ++ content }]
    else [last]
  | m :: m' :: rest => m :: appendToLast content (m' :: rest)

/-- `finishStreaming`: when the last message exists, has `role === "assistant"`
and a truthy `isStreaming`, it receives `id: messageId` and
`isStreaming: false`; otherwise the list is unchanged. -/
def finishStreaming (messageId : Nat) : List ChatMsg → List ChatMsg
  | [] => []
  | [last] =>
    if last.role = Role.assistant ∧ last.isStreaming = true then
      [{ last with id := some messageId, isStreaming := false }]
    else [last]
  | m :: m' :: rest => m :: finishStreaming messageId (m' :: rest)

/-- `updateRating`: maps over the list, giving every message whose `id`
strictly equals `messageId` the new `rating` and leaving the rest alone. -/
def updateRating (messageId : Nat) (rating : Int) (msgs : List ChatMsg) : List ChatMsg :=
  msgs.map fun m => if m.id = some messageId then { m with rating := some rating } else m

/-- `prependMessages`: `[...msgs, ...s.messages]`, a plain concatenation of the
fetched page ahead of the current list. -/
def prependMessages (page : List ChatMsg) (cur : List ChatMsg) : List ChatMsg :=
  page ++ cur

/-- No two entries of the list carry the same server id. -/
def noDupServerIds (msgs : List ChatMsg) : Prop :=
  (msgs.filterMap fun m => m.id).Nodup

/-- One parsed wire frame `\x7btype, content?, message_id?\x7d`, the shape
`JSON.parse` yields on a well-formed `data: ` line of the chat and audit
streams. -/
structure StreamFrame where
  type : String
  content : Option String := none
  message_id : Option Nat := none
deriving DecidableEq, Repr

/-- Truthiness of `event.content`: absent and `""` are falsy. -/
def strTruthy : Option String → Bool
  | none => false
  | some s => s != ""

/-- Truthiness of `event.message_id`: absent and `0` are falsy. -/
def natTruthy : Option Nat → Bool
  | none => false
  | some n => n != 0

/-- `event.content || fallback`. -/
def contentOr (fallback : String) : Option String → String
  | none => fallback
  | some s => if s = "" then fallback else s

/-- `buffer.split("\n")` followed by `buffer = lines.pop() || ""`: the pair of
the complete lines and the trailing (possibly empty) fragment carried to the
next read. -/
def splitLines : List Char → List (List Char) × List Char
  | [] => ([], [])
  | c :: rest =>
    let p := splitLines rest
    if c = '\n' then ([] :: p.1, p.2)
    else
      match p with
      | ([], frag) => ([], c :: frag)
      | (l :: ls, frag) => ((c :: l) :: ls, frag)

/-- The candidate-frame marker `"data: "` as characters. -/
def dataMarker : List Char := ("data: ").data

/-- Handling of one complete line in `apiStream`: a line is a candidate frame
only when it starts with `"data: "`; its remainder `line.slice(6)` goes to the
JSON parser.  `parse` is a parameter standing for the host primitive
`JSON.parse` (composed with the expected frame shape); `none` models a parse
exception, which the source catches and skips. -/
def lineEvent {α : Type} (parse : List Char → Option α) (line : List Char) : Option α :=
  if dataMarker.isPrefixOf line then parse (line.drop 6) else none

/-- One iteration of the `while (true)` read loop of `apiStream` on a chunk:
append the decoded chunk to the carry buffer, split on newlines, keep the
trailing fragment, and yield an event for every complete candidate line whose
JSON parses. -/
def processChunk {α : Type} (parse : List Char → Option α)
    (st : List Char × List α) (chunk : List Char) : List Char × List α :=
  let p := splitLines (st.1 ++ chunk)
  (p.2, st.2 ++ p.1.filterMap (lineEvent parse))

/-- `apiStream` after a successful response: the full sequence of events it
yields for a byte stream delivered as `chunks`, starting from an empty carry
buffer.  The loop ends exactly when `reader.read()` reports `done` (the chunk
list is exhausted); the final incomplete fragment is discarded. -/
def apiStream {α : Type} (parse : List Char → Option α) (chunks : List (List Char)) : List α :=
  (chunks.foldl (processChunk parse) ([], [])).2

/-- Whitespace as removed by the host primitive `String.prototype.trim`
(restricted to the ASCII whitespace the modelled inputs can contain). -/
def isJsWs (c : Char) : Bool :=
  (c == ' ') || (c == '\t') || (c == '\n') || (c == '\r')

/-- Model of the host primitive `String.prototype.trim`: drop leading and
trailing whitespace. -/
def jsTrim (s : String) : String :=
  ⟨((s.data.dropWhile isJsWs).reverse.dropWhile isJsWs).reverse⟩

/-- Component state of the chat page read and written by `handleSend`: the
store's message list, the single-flight `isSending` flag and the input field. -/
structure ChatState where
  messages : List ChatMsg
  isSending : Bool := false
  input : String := ""
deriving Repr

/-- The guard of `handleSend`:
`const text = input.trim(); if (!text || isSending) return;`. -/
def sendAccepts (st : ChatState) : Bool :=
  (jsTrim st.input != "") && !st.isSending

/-- The synchronous prefix of `handleSend` up to its first suspension point:
on rejection nothing changes; on acceptance the input is cleared, the
single-flight flag is raised, and the user message and the streaming assistant
placeholder are appended by two consecutive `addMessage` calls, with no
suspension point between them. -/
def submit (st : ChatState) : ChatState :=
  if sendAccepts st then
    { messages :=
        addMessage
          (addMessage st.messages { role := Role.user, content := jsTrim st.input })
          { role := Role.assistant, content := "", isStreaming := true },
      isSending := true,
      input := "" }
  else st

/-- The body of the `for await` loop of `handleSend` for one stream event. -/
def processEvent (msgs : List ChatMsg) (e : StreamFrame) : List ChatMsg :=
  if e.type = "token" ∧ strTruthy e.content = true then
    appendToLast (e.content.getD ("")) msgs
  else if e.type = "done" ∧ natTruthy e.message_id = true then
    finishStreaming (e.message_id.getD 0) msgs
  else if e.type = "error" then
    finishStreaming 0 (appendToLast (contentOr ("Ошибка") e.content) msgs)
  else msgs

/-- A whole `handleSend` turn: the synchronous submit prefix, the `for await`
loop over the events the stream yields, the `catch` branch when the request or
the stream threw, and the closing `setIsSending(false)`. -/
def handleSend (st : ChatState) (events : List StreamFrame) (threw : Bool) : ChatState :=
  if sendAccepts st then
    let m1 := events.foldl processEvent (submit st).messages
    let m2 :=
      if threw then
        finishStreaming 0 (appendToLast ("Произошла ошибка. Попробуй ещё раз.") m1)
      else m1
    { messages := m2, isSending := false, input := "" }
  else st

/-- Component state of the audit page read and written by `handleAudit`. -/
structure AuditState where
  text : String := ""
  result : String := ""
  isAuditing : Bool := false
deriving Repr

/-- The guard of `handleAudit`:
`if (!text.trim() || text.trim().length < 50 || isAuditing) return;` —
`sendAudit` is reached (a network request is issued) exactly when this holds. -/
def auditAccepts (text : String) (isAuditing : Bool) : Bool :=
  !((jsTrim text == "") || decide ((jsTrim text).length < 50) || isAuditing)

/-- One `for await` iteration of `handleAudit` on the accumulating result. -/
def auditEvent (result : String) (e : StreamFrame) : String :=
  if e.type = "token" ∧ strTruthy e.content = true then
    result ++ e.content.getD ("")
  else if e.type = "done" then result
  else if e.type = "error" then contentOr ("Ошибка при анализе") e.content
  else result

/-- A whole `handleAudit` turn: the guard, `setResult("")`, the `for await`
loop, the `catch` replacement, and the closing `setIsAuditing(false)`. -/
def handleAudit (st : AuditState) (events : List StreamFrame) (threw : Bool) : AuditState :=
  if auditAccepts st.text st.isAuditing then
    let r1 := events.foldl auditEvent ""
    let r2 := if threw then "Произошла ошибка. Попробуй ещё раз." else r1
    { st with result := r2, isAuditing := false }
  else st

/-- No message of the list is currently streaming. -/
def noStreaming (msgs : List ChatMsg) : Prop :=
  ∀ m ∈ msgs, m.isStreaming = false

/-- Any streaming message can only be the final one, and an assistant one —
the between-events invariant the single-flight guard maintains. -/
def streamOk (msgs : List ChatMsg) : Prop :=
  (∀ m ∈ msgs.dropLast, m.isStreaming = false) ∧
  (∀ m, msgs.getLast? = some m → m.isStreaming = true → m.role = Role.assistant)

/-- The concatenation of a list of strings, in order. -/
def sconcat (cs : List String) : String :=
  cs.foldr (fun a b => a ++ b) ""

/-- Every message of the list carrying server id `mid` has rating `r`. -/
def ratedAll (msgs : List ChatMsg) (mid : Nat) (r : Int) : Prop :=
  ∀ m ∈ msgs, m.id = some mid → m.rating = some r

/-- A concrete stand-in for the host primitive `JSON.parse` (composed with the
expected frame shape), defined on the payloads occurring in the concrete
streams below and raising (`none`) elsewhere, exactly as `JSON.parse` does on
those inputs.  `apiStream` is parametric in the parser, so the general
theorems hold for any such stand-in. -/
def demoParse (l : List Char) : Option StreamFrame :=
  if l = ("\x7b\"type\":\"done\",\"message_id\":1\x7d").data then
    some { type := "done", message_id := some 1 }
  else if l = ("\x7b\"type\":\"token\",\"content\":\"x\"\x7d").data then
    some { type := "token", content := some ("x") }
  else none

/-- A single chunk carrying a complete `done` frame line followed by a
complete `token` frame line. -/
def doneThenTokenChunk : List Char :=
  ("data: \x7b\"type\":\"done\",\"message_id\":1\x7d\ndata: \x7b\"type\":\"token\",\"content\":\"x\"\x7d\n").data

/-- A single chunk carrying a malformed candidate line (`data: \x7bbad`)
followed by a well-formed `token` frame line. -/
def malformedThenGoodChunk : List Char :=
  ("data: \x7bbad\ndata: \x7b\"type\":\"token\",\"content\":\"x\"\x7d\n").data

/-- The characters of the well-formed `token` candidate line. -/
def goodTokenLine : List Char :=
  ("data: \x7b\"type\":\"token\",\"content\":\"x\"\x7d").data

/-- The characters of the malformed candidate line. -/
def badFrameLine : List Char :=
  ("data: \x7bbad").data

/-- A finalized assistant message (streaming already cleared). -/
def finalizedMsg : ChatMsg :=
  { id := some 7, role := Role.assistant, content := "a", isStreaming := false }

/-- A 49-character input (length below the audit gate). -/
def str49 : String :=
  "aaaaaaaaaaaaaaaaaaaaaaaaaaaaaaaaaaaaaaaaaaaaaaaaa"

/-- A 50-character input (length exactly at the audit gate). -/
def str50 : String :=
  "aaaaaaaaaaaaaaaaaaaaaaaaaaaaaaaaaaaaaaaaaaaaaaaaaa"

theorem eq_dropLast_append {α : Type} :
    ∀ (l : List α) (a : α), l.getLast? = some a → l = l.dropLast ++ [a]
  | [], a => by simp
  | [x], a => by
      intro h
      simp only [List.getLast?_singleton, Option.some.injEq] at h
      simp [h]
  | x :: y :: rest, a => by
      intro h
      rw [List.getLast?_cons_cons] at h
      have ih := eq_dropLast_append (y :: rest) a h
      have hdl : (x :: y :: rest).dropLast = x :: (y :: rest).dropLast := rfl
      rw [hdl, List.cons_append, ← ih]

theorem appendToLast_concat (c : String) :
    ∀ (init : List ChatMsg) (last : ChatMsg),
      appendToLast c (init ++ [last]) =
        init ++ [if last.role = Role.assistant then
                  { last with content := last.content ++ c } else last]
  | [], last => by
      simp only [List.nil_append]
      simp only [appendToLast]
      split <;> rfl
  | [m], last => by
      show appendToLast c (m :: [last]) = _
      simp only [appendToLast]
      split <;> rfl
  | m :: m' :: init, last => by
      have ih := appendToLast_concat c (m' :: init) last
      show appendToLast c (m :: m' :: (init ++ [last])) = _
      simp only [appendToLast]
      rw [← List.cons_append, ih]
      rfl

theorem finishStreaming_concat (mid : Nat) :
    ∀ (init : List ChatMsg) (last : ChatMsg),
      finishStreaming mid (init ++ [last]) =
        init ++ [if last.role = Role.assistant ∧ last.isStreaming = true then
                  { last with id := some mid, isStreaming := false } else last]
  | [], last => by
      simp only [List.nil_append]
      simp only [finishStreaming]
      split <;> rfl
  | [m], last => by
      show finishStreaming mid (m :: [last]) = _
      simp only [finishStreaming]
      split <;> rfl
  | m :: m' :: init, last => by
      have ih := finishStreaming_concat mid (m' :: init) last
      show finishStreaming mid (m :: m' :: (init ++ [last])) = _
      simp only [finishStreaming]
      rw [← List.cons_append, ih]
      rfl

theorem streamOk_concat_iff (init : List ChatMsg) (x : ChatMsg) :
    streamOk (init ++ [x]) ↔
      ((∀ m ∈ init, m.isStreaming = false) ∧
       (x.isStreaming = true → x.role = Role.assistant)) := by
  unfold streamOk
  rw [List.dropLast_concat, List.getLast?_concat]
  constructor
  · rintro ⟨h1, h2⟩
    exact ⟨h1, h2 x rfl⟩
  · rintro ⟨h1, h2⟩
    refine ⟨h1, fun m hm => ?_⟩
    injection hm with hm
    subst hm
    exact h2

theorem streamOk_nil : streamOk [] := by
  constructor
  · intro m hm
    cases hm
  · intro m hm
    cases hm

theorem getLast?_eq_none_iff {α : Type} : ∀ {l : List α}, l.getLast? = none ↔ l = []
  | [] => by simp
  | [x] => by simp
  | x :: y :: rest => by
      rw [List.getLast?_cons_cons]
      simp [getLast?_eq_none_iff]

theorem noStreaming_appendToLast (c : String) {msgs : List ChatMsg}
    (h : noStreaming msgs) : noStreaming (appendToLast c msgs) := by
  cases hl : msgs.getLast? with
  | none =>
      rw [getLast?_eq_none_iff.mp hl]
      intro m hm
      cases hm
  | some last =>
      have hd := eq_dropLast_append msgs last hl
      rw [hd] at h
      rw [hd, appendToLast_concat]
      intro m hm
      rcases List.mem_append.mp hm with hmi | hml
      · exact h m (List.mem_append_left _ hmi)
      · have hlast : last.isStreaming = false :=
          h last (List.mem_append_right _ (List.mem_singleton.mpr rfl))
        rw [List.mem_singleton.mp hml]
        split <;> simpa using hlast

theorem streamOk_appendToLast (c : String) {msgs : List ChatMsg}
    (h : streamOk msgs) : streamOk (appendToLast c msgs) := by
  cases hl : msgs.getLast? with
  | none =>
      rw [getLast?_eq_none_iff.mp hl]
      exact streamOk_nil
  | some last =>
      have hd := eq_dropLast_append msgs last hl
      rw [hd] at h
      rw [hd, appendToLast_concat]
      rw [streamOk_concat_iff] at h ⊢
      refine ⟨h.1, ?_⟩
      split_ifs with hr
      · intro _
        exact hr
      · exact h.2

theorem noStreaming_finishStreaming (mid : Nat) {msgs : List ChatMsg}
    (h : noStreaming msgs) : noStreaming (finishStreaming mid msgs) := by
  cases hl : msgs.getLast? with
  | none =>
      rw [getLast?_eq_none_iff.mp hl]
      intro m hm
      cases hm
  | some last =>
      have hd := eq_dropLast_append msgs last hl
      rw [hd] at h
      rw [hd, finishStreaming_concat]
      have hlast : last.isStreaming = false :=
        h last (List.mem_append_right _ (List.mem_singleton.mpr rfl))
      rw [if_neg (by rintro ⟨_, hstr⟩; rw [hlast] at hstr; cases hstr)]
      exact h

theorem noStreaming_finishStreaming_of_streamOk (mid : Nat) {msgs : List ChatMsg}
    (h : streamOk msgs) : noStreaming (finishStreaming mid msgs) := by
  cases hl : msgs.getLast? with
  | none =>
      rw [getLast?_eq_none_iff.mp hl]
      intro m hm
      cases hm
  | some last =>
      have hd := eq_dropLast_append msgs last hl
      rw [hd] at h
      rw [hd, finishStreaming_concat]
      rw [streamOk_concat_iff] at h
      intro m hm
      rcases List.mem_append.mp hm with hmi | hml
      · exact h.1 m hmi
      · rw [List.mem_singleton.mp hml]
        split_ifs with hg
        · rfl
        · by_contra hne
          have hstr : last.isStreaming = true := by
            cases hv : last.isStreaming
            · exact absurd hv hne
            · rfl
          exact hg ⟨h.2 hstr, hstr⟩

theorem streamOk_of_noStreaming {msgs : List ChatMsg}
    (h : noStreaming msgs) : streamOk msgs := by
  constructor
  · intro m hm
    exact h m (List.dropLast_subset msgs hm)
  · intro m hm hstr
    have hd := eq_dropLast_append msgs m hm
    have : m ∈ msgs := by
      rw [hd]
      exact List.mem_append_right _ (List.mem_singleton.mpr rfl)
    rw [h m this] at hstr
    cases hstr

end Lobanovo

namespace Lobanovo

theorem streamOk_processEvent {msgs : List ChatMsg} {e : StreamFrame}
    (h : streamOk msgs) : streamOk (processEvent msgs e) := by
  unfold processEvent
  split_ifs
  · exact streamOk_appendToLast _ h
  · exact streamOk_of_noStreaming (noStreaming_finishStreaming_of_streamOk _ h)
  · exact streamOk_of_noStreaming
      (noStreaming_finishStreaming_of_streamOk _ (streamOk_appendToLast _ h))
  · exact h

theorem noStreaming_processEvent {msgs : List ChatMsg} {e : StreamFrame}
    (h : noStreaming msgs) : noStreaming (processEvent msgs e) := by
  unfold processEvent
  split_ifs
  · exact noStreaming_appendToLast _ h
  · exact noStreaming_finishStreaming _ h
  · exact noStreaming_finishStreaming _ (noStreaming_appendToLast _ h)
  · exact h

theorem noStreaming_processEvent_error {msgs : List ChatMsg} {e : StreamFrame}
    (h : streamOk msgs) (he : e.type = "error") :
    noStreaming (processEvent msgs e) := by
  unfold processEvent
  rw [he]
  rw [if_neg (fun hc => absurd hc.1 (by decide))]
  rw [if_neg (fun hc => absurd hc.1 (by decide))]
  rw [if_pos rfl]
  exact noStreaming_finishStreaming_of_streamOk _ (streamOk_appendToLast _ h)

theorem foldl_processEvent_streamOk :
    ∀ (events : List StreamFrame) (msgs : List ChatMsg),
      streamOk msgs → streamOk (events.foldl processEvent msgs)
  | [], _, h => h
  | _ :: es, msgs, h =>
      foldl_processEvent_streamOk es _ (streamOk_processEvent h)

theorem foldl_processEvent_noStreaming :
    ∀ (events : List StreamFrame) (msgs : List ChatMsg),
      noStreaming msgs → noStreaming (events.foldl processEvent msgs)
  | [], _, h => h
  | _ :: es, msgs, h =>
      foldl_processEvent_noStreaming es _ (noStreaming_processEvent h)

theorem foldl_processEvent_error :
    ∀ (events : List StreamFrame) (msgs : List ChatMsg),
      streamOk msgs → (∃ e ∈ events, e.type = "error") →
      noStreaming (events.foldl processEvent msgs)
  | [], _, _, hex => absurd hex (by simp)
  | e :: es, msgs, h, hex => by
      rcases hex with ⟨e', he', ht⟩
      rcases List.mem_cons.mp he' with rfl | hmem
      · exact foldl_processEvent_noStreaming es _ (noStreaming_processEvent_error h ht)
      · exact foldl_processEvent_error es _ (streamOk_processEvent h) ⟨e', hmem, ht⟩

theorem streamOk_submit_messages {msgs : List ChatMsg} (h : noStreaming msgs)
    (text : String) :
    streamOk (addMessage (addMessage msgs { role := Role.user, content := text })
      { role := Role.assistant, content := "", isStreaming := true }) := by
  unfold addMessage
  rw [streamOk_concat_iff]
  constructor
  · intro m hm
    rcases List.mem_append.mp hm with hmi | hml
    · exact h m hmi
    · rw [List.mem_singleton.mp hml]
  · intro _
    rfl

end Lobanovo

namespace Lobanovo

/-- C2 counterexample: with the last message a finalized assistant message
(`role` assistant, `isStreaming` false), a subsequent `appendToLast` (the
`onToken` path) is NOT a no-op — the store guard checks only the role, not the
streaming flag, so the call still mutates the finalized message's content. -/
theorem c2_counterexample : appendToLast ("b") [finalizedMsg] ≠ [finalizedMsg] := by
  decide

/-- C2 (amended): once the last message is finalized (assistant, streaming
false), a subsequent `finishStreaming` (`onDone`/`onError`) call is a no-op —
a message leaves streaming at most once and no other message is mutated; a
subsequent `appendToLast` (`onToken`), however, still appends its content to
that finalized last assistant message, mutating no message other than it. -/
theorem c2_finalized_transition (msgs : List ChatMsg) (last : ChatMsg)
    (mid : Nat) (c : String)
    (h : msgs.getLast? = some last) (hrole : last.role = Role.assistant)
    (hs : last.isStreaming = false) :
    finishStreaming mid msgs = msgs ∧
    appendToLast c msgs =
      msgs.dropLast ++ [{ last with content := last.content ++ c }] := by
  have hd := eq_dropLast_append msgs last h
  constructor
  · conv_lhs => rw [hd]
    rw [finishStreaming_concat]
    rw [if_neg (by rintro ⟨_, hstr⟩; rw [hs] at hstr; cases hstr)]
    exact hd.symm
  · conv_lhs => rw [hd]
    rw [appendToLast_concat, if_pos hrole]

theorem c2_witness :
    finishStreaming 5 [finalizedMsg] = [finalizedMsg] ∧
      appendToLast ("b") [finalizedMsg] =
        ([finalizedMsg] : List ChatMsg).dropLast ++
          [{ finalizedMsg with content := finalizedMsg.content ++ "b" }] :=
  c2_finalized_transition [finalizedMsg] finalizedMsg 5 "b" rfl rfl rfl

/-- C3: `submit` (the synchronous prefix of `handleSend`) is a no-op — the
whole state, in particular the message list, is unchanged — when the trimmed
input is empty or a send is in flight; when accepted it appends exactly two
messages, first the user message carrying the trimmed text, then the assistant
placeholder with empty content and streaming true.  Both appends happen inside
the one synchronous function, so no state with only the user message is
observable after `submit` returns. -/
theorem c3_submit_guard (st : ChatState) :
    ((jsTrim st.input = "" ∨ st.isSending = true) → submit st = st) ∧
    (jsTrim st.input ≠ "" → st.isSending = false →
      (submit st).messages =
        st.messages ++
          [{ role := Role.user, content := jsTrim st.input },
           { role := Role.assistant, content := "", isStreaming := true }]) := by
  constructor
  · intro h
    have hb : sendAccepts st = false := by
      unfold sendAccepts
      rcases h with h | h
      · simp [h]
      · simp [h]
    unfold submit
    rw [hb]
    simp
  · intro h1 h2
    have hb : sendAccepts st = true := by
      unfold sendAccepts
      simp [h1, h2]
    unfold submit
    rw [hb]
    simp [addMessage]

theorem c3_witness :
    submit { messages := [], isSending := true, input := "hi" } =
        { messages := [], isSending := true, input := "hi" } ∧
      (submit { messages := [], isSending := false, input := " hi " }).messages =
        [] ++
          [{ role := Role.user, content := jsTrim (" hi ") },
           { role := Role.assistant, content := "", isStreaming := true }] :=
  ⟨(c3_submit_guard _).1 (Or.inr rfl),
   (c3_submit_guard _).2 (by decide) rfl⟩

/-- C4: a chat or audit turn that fails unrecoverably — the stream yields an
`error` event, or the request/stream throws — ends in a terminal state: after
`handleSend` no message of the conversation has `isStreaming = true` (given
that none was streaming when the turn began), and after `handleAudit` the
in-flight flag is cleared. -/
theorem c4_failure_terminal (st : ChatState) (a : AuditState)
    (events : List StreamFrame) (threw : Bool)
    (h0 : noStreaming st.messages) (ha : a.isAuditing = false)
    (hfail : threw = true ∨ ∃ e ∈ events, e.type = "error") :
    noStreaming (handleSend st events threw).messages ∧
    (handleAudit a events threw).isAuditing = false := by
  constructor
  · by_cases hacc : sendAccepts st = true
    · have hsub : streamOk (submit st).messages := by
        unfold submit
        rw [hacc]
        exact streamOk_submit_messages h0 _
      unfold handleSend
      rw [hacc]
      cases threw
      · rcases hfail with hf | hex
        · cases hf
        · exact foldl_processEvent_error events _ hsub hex
      · exact noStreaming_finishStreaming_of_streamOk _
          (streamOk_appendToLast _ (foldl_processEvent_streamOk events _ hsub))
    · unfold handleSend
      rw [if_neg hacc]
      exact h0
  · unfold handleAudit
    by_cases hacc : auditAccepts a.text a.isAuditing = true
    · rw [if_pos hacc]
    · rw [if_neg hacc]
      exact ha

theorem c4_witness :
    noStreaming (handleSend { messages := [], isSending := false, input := "hi" }
        [] true).messages ∧
      (handleAudit { text := "", result := "", isAuditing := false } [] true).isAuditing =
        false :=
  c4_failure_terminal
    { messages := [], isSending := false, input := "hi" }
    { text := "", result := "", isAuditing := false } [] true
    (fun m hm => nomatch hm) rfl (Or.inl rfl)

/-- C7 counterexample: `prependMessages` is a plain concatenation with no
deduplication, so prepending a page that shares a server id with the current
list yields two messages with the same `serverId`. -/
theorem c7_counterexample :
    ¬ noDupServerIds (prependMessages
        [{ id := some 1, role := Role.assistant, content := "old" }]
        [{ id := some 1, role := Role.assistant, content := "old" }]) := by
  unfold noDupServerIds prependMessages
  decide

/-- C7 (amended): the merged sequence produced by `prependMessages` is free of
duplicate server ids provided the fetched page and the current list are each
duplicate-free and share no server id — `prependMessages` itself performs no
deduplication, so the disjointness is a caller obligation. -/
theorem c7_disjoint_prepend_nodup (page cur : List ChatMsg)
    (hp : noDupServerIds page) (hc : noDupServerIds cur)
    (hdisj : ∀ i ∈ page.filterMap (fun m => m.id), i ∉ cur.filterMap (fun m => m.id)) :
    noDupServerIds (prependMessages page cur) := by
  unfold noDupServerIds prependMessages
  unfold noDupServerIds at hp hc
  rw [List.filterMap_append]
  exact hp.append hc hdisj

theorem c7_witness :
    noDupServerIds (prependMessages
      [{ id := some 1, role := Role.assistant, content := "a" }]
      [{ id := some 2, role := Role.user, content := "b" }]) :=
  c7_disjoint_prepend_nodup _ _
    (by unfold noDupServerIds; decide)
    (by unfold noDupServerIds; decide)
    (by decide)

/-- C9: `updateRating` applied twice with the same rating equals applying it
once (the observable local state is identical), and applying `+1` then `-1`
leaves every message carrying that server id rated `-1`. -/
theorem c9_rating_idempotent_overwrite (msgs : List ChatMsg) (mid : Nat) (r : Int)
    (hpresent : ∃ m ∈ msgs, m.id = some mid) :
    updateRating mid r (updateRating mid r msgs) = updateRating mid r msgs ∧
    ratedAll (updateRating mid (-1) (updateRating mid 1 msgs)) mid (-1) := by
  constructor
  · unfold updateRating
    rw [List.map_map]
    apply List.map_congr_left
    intro m _
    by_cases hm : m.id = some mid
    · simp [Function.comp, hm]
    · simp [Function.comp, hm]
  · intro m hm hid
    unfold updateRating at hm
    rcases List.mem_map.mp hm with ⟨m0, _, rfl⟩
    by_cases h : m0.id = some mid
    · simp [h]
    · rw [if_neg h] at hid ⊢
      exact absurd hid h

theorem c9_witness :
    updateRating 3 1 (updateRating 3 1
          [{ id := some 3, role := Role.assistant, content := "x" }]) =
        updateRating 3 1 [{ id := some 3, role := Role.assistant, content := "x" }] ∧
      ratedAll (updateRating 3 (-1) (updateRating 3 1
          [{ id := some 3, role := Role.assistant, content := "x" }])) 3 (-1) :=
  c9_rating_idempotent_overwrite
    [{ id := some 3, role := Role.assistant, content := "x" }] 3 1 (by decide)

/-- C10: `updateRating` preserves the list length and, position by position,
maps each message to itself unless its id equals the target id, in which case
only the `rating` field is replaced — so order, the set of updated messages
(all of them, not just the first) and every other field are untouched. -/
theorem c10_updateRating_frame (msgs : List ChatMsg) (mid : Nat) (r : Int) :
    (updateRating mid r msgs).length = msgs.length ∧
    ∀ i : Nat,
      (updateRating mid r msgs)[i]? =
        (msgs[i]?).map fun m =>
          if m.id = some mid then { m with rating := some r } else m := by
  constructor
  · unfold updateRating
    exact List.length_map _ _
  · intro i
    unfold updateRating
    rw [List.getElem?_map]

end Lobanovo

namespace Lobanovo

/-- C8: the audit submit guard rejects — `sendAudit` is never reached, so no
network call is issued — whenever the trimmed text is shorter than 50
characters (the constant of the source), whatever the in-flight flag; with no
audit in flight, any text whose trimmed length reaches 50 is accepted. -/
theorem c8_audit_length_gate (text : String) :
    ((jsTrim text).length < 50 → ∀ busy : Bool, auditAccepts text busy = false) ∧
    (50 ≤ (jsTrim text).length → auditAccepts text false = true) := by
  constructor
  · intro h busy
    unfold auditAccepts
    have hd : decide ((jsTrim text).length < 50) = true := decide_eq_true h
    simp [hd]
  · intro h
    unfold auditAccepts
    have h1 : decide ((jsTrim text).length < 50) = false :=
      decide_eq_false (Nat.not_lt.mpr h)
    have h2 : (jsTrim text == "") = false := by
      rw [beq_eq_false_iff_ne]
      intro hh
      rw [hh] at h
      exact absurd h (by decide)
    simp [h1, h2]

theorem c8_witness :
    auditAccepts str49 true = false ∧ auditAccepts str49 false = false ∧
      auditAccepts str50 false = true :=
  ⟨(c8_audit_length_gate str49).1 (by decide) true,
   (c8_audit_length_gate str49).1 (by decide) false,
   (c8_audit_length_gate str50).2 (by decide)⟩

theorem splitLines_nil : splitLines [] = ([], []) := rfl

theorem splitLines_cons_nl (rest : List Char) :
    splitLines ('\n' :: rest) = ([] :: (splitLines rest).1, (splitLines rest).2) := by
  simp [splitLines]

theorem splitLines_cons {c : Char} (hc : c ≠ '\n') (rest : List Char) :
    splitLines (c :: rest) =
      (match splitLines rest with
       | ([], frag) => ([], c :: frag)
       | (l :: ls, frag) => ((c :: l) :: ls, frag)) := by
  simp [splitLines, hc]

end Lobanovo

namespace Lobanovo

theorem splitLines_carry : ∀ (s t : List Char),
    splitLines (s ++ t) =
      ((splitLines s).1 ++ (splitLines ((splitLines s).2 ++ t)).1,
       (splitLines ((splitLines s).2 ++ t)).2)
  | [], t => by
      simp [splitLines_nil]
  | c :: s, t => by
      have ih := splitLines_carry s t
      by_cases hc : c = '\n'
      · subst hc
        rw [List.cons_append, splitLines_cons_nl, splitLines_cons_nl, ih]
        simp
      · rw [List.cons_append, splitLines_cons hc, splitLines_cons hc, ih]
        rcases h1 : splitLines s with ⟨ls, f⟩
        cases ls with
        | nil =>
            simp only [List.nil_append]
            rw [List.cons_append, splitLines_cons hc]
        | cons l ls' =>
            simp

end Lobanovo

namespace Lobanovo

theorem splitLines_no_nl : ∀ {s : List Char}, '\n' ∉ s → splitLines s = ([], s)
  | [], _ => rfl
  | c :: s, h => by
      have hc : c ≠ '\n' := by
        intro hh
        exact h (by rw [← hh]; exact List.mem_cons_self c s)
      rw [splitLines_cons hc,
        splitLines_no_nl (fun hm => h (List.mem_cons_of_mem c hm))]

theorem splitLines_frag_no_nl : ∀ (s : List Char), '\n' ∉ (splitLines s).2
  | [] => by simp [splitLines_nil]
  | c :: s => by
      have hf := splitLines_frag_no_nl s
      by_cases hc : c = '\n'
      · subst hc
        rw [splitLines_cons_nl]
        exact hf
      · rw [splitLines_cons hc]
        rcases h1 : splitLines s with ⟨ls, f⟩
        rw [h1] at hf
        cases ls with
        | nil =>
            intro hm
            rcases List.mem_cons.mp hm with hh | hh
            · exact hc hh.symm
            · exact hf hh
        | cons l ls' => exact hf

theorem foldl_processChunk_eq {α : Type} (parse : List Char → Option α) :
    ∀ (chunks : List (List Char)) (buf : List Char) (evs : List α), '\n' ∉ buf →
      chunks.foldl (processChunk parse) (buf, evs) =
        ((splitLines (buf ++ chunks.flatten)).2,
         evs ++ ((splitLines (buf ++ chunks.flatten)).1).filterMap (lineEvent parse))
  | [], buf, evs, hbuf => by
      simp [splitLines_no_nl hbuf]
  | ch :: chunks, buf, evs, hbuf => by
      rw [List.foldl_cons]
      rw [show processChunk parse (buf, evs) ch =
        ((splitLines (buf ++ ch)).2,
         evs ++ ((splitLines (buf ++ ch)).1).filterMap (lineEvent parse)) from rfl]
      rw [foldl_processChunk_eq parse chunks _ _ (splitLines_frag_no_nl _)]
      rw [List.flatten_cons, ← List.append_assoc, splitLines_carry (buf ++ ch) chunks.flatten]
      simp [List.filterMap_append]

theorem apiStream_events {α : Type} (parse : List Char → Option α)
    (chunks : List (List Char)) :
    apiStream parse chunks = ((splitLines chunks.flatten).1).filterMap (lineEvent parse) := by
  unfold apiStream
  rw [foldl_processChunk_eq parse chunks [] [] (by simp)]
  simp

end Lobanovo

namespace Lobanovo

/-- C1 counterexample: `apiStream` does not stop at the first `done`/`error`
event — fed one chunk holding a `done` frame line followed by a `token` frame
line, it yields the `token` event after the `done` event; the loop only ends
when the byte stream closes. -/
theorem c1_counterexample :
    apiStream demoParse [doneThenTokenChunk] =
      [{ type := "done", message_id := some 1 },
       { type := "token", content := some ("x") }] := by
  decide

/-- C1 (amended): the sequence of events `apiStream` yields is exactly one
event per complete, well-formed candidate line of the whole byte stream up to
its closure — termination happens only when the underlying stream closes, not
when a `done`/`error` event is yielded, so frames following a `done`/`error`
frame are still yielded. -/
theorem c1_stream_ends_only_at_close {α : Type} (parse : List Char → Option α)
    (chunks : List (List Char)) :
    apiStream parse chunks =
      ((splitLines chunks.flatten).1).filterMap (lineEvent parse) :=
  apiStream_events parse chunks

/-- C6: a candidate frame line (prefix `data: `) whose remainder fails to
parse as JSON is dropped silently: it contributes no event and does not
terminate the sequence — the events of the stream are exactly those of the
lines before it followed by those of the lines after it, so every subsequent
well-formed `data: ` line still yields its event. -/
theorem c6_malformed_line_dropped {α : Type} (parse : List Char → Option α)
    (chunks : List (List Char)) (A C : List (List Char)) (b : List Char)
    (h : (splitLines chunks.flatten).1 = A ++ b :: C)
    (hb : dataMarker.isPrefixOf b = true) (hbad : parse (b.drop 6) = none) :
    apiStream parse chunks =
      A.filterMap (lineEvent parse) ++ C.filterMap (lineEvent parse) := by
  rw [apiStream_events parse chunks, h, List.filterMap_append]
  have hline : lineEvent parse b = none := by
    unfold lineEvent
    rw [if_pos hb, hbad]
  rw [List.filterMap_cons_none hline]

theorem c6_witness :
    apiStream demoParse [malformedThenGoodChunk] =
      List.filterMap (lineEvent demoParse) [] ++
        List.filterMap (lineEvent demoParse) [goodTokenLine] :=
  c6_malformed_line_dropped demoParse [malformedThenGoodChunk] [] [goodTokenLine]
    badFrameLine (by decide) (by decide) (by decide)

end Lobanovo

namespace Lobanovo

theorem foldl_appendToLast :
    ∀ (cs : List String) (msgs : List ChatMsg) (last : ChatMsg),
      msgs.getLast? = some last → last.role = Role.assistant →
      (cs.foldl (fun m c => appendToLast c m) msgs).getLast? =
        some { last with content := last.content ++ sconcat cs }
  | [], msgs, last => by
      intro h _
      rw [List.foldl_nil, h]
      have : last.content ++ sconcat [] = last.content := by
        simp [sconcat]
      rw [this]
  | c :: cs, msgs, last => by
      intro h hrole
      have hd := eq_dropLast_append msgs last h
      rw [List.foldl_cons]
      have hstep : appendToLast c msgs =
          msgs.dropLast ++ [{ last with content := last.content ++ c }] := by
        conv_lhs => rw [hd]
        rw [appendToLast_concat, if_pos hrole]
      rw [hstep]
      rw [foldl_appendToLast cs _ { last with content := last.content ++ c }
        (List.getLast?_concat _) hrole]
      have : (last.content ++ c) ++ sconcat cs = last.content ++ sconcat (c :: cs) := by
        rw [String.append_assoc]
        rfl
      rw [this]

/-- C5: delivering `Token` contents `c1..cn` in order through `appendToLast`
(the `onToken` path) to a list whose last message is the pending assistant
placeholder (assistant role, streaming, empty content) leaves that message
with content exactly the concatenation `c1 ++ ... ++ cn`. -/
theorem c5_token_concat (msgs : List ChatMsg) (last : ChatMsg) (cs : List String)
    (h : msgs.getLast? = some last) (hrole : last.role = Role.assistant)
    (hstreaming : last.isStreaming = true) (hempty : last.content = "") :
    (cs.foldl (fun m c => appendToLast c m) msgs).getLast? =
      some { last with content := sconcat cs } := by
  rw [foldl_appendToLast cs msgs last h hrole, hempty]
  have : ("" : String) ++ sconcat cs = sconcat cs := by simp
  rw [this]

theorem c5_witness :
    ((["При", "вет!"] : List String).foldl (fun m c => appendToLast c m)
        [{ role := Role.user, content := "Привет" },
         { role := Role.assistant, content := "", isStreaming := true }]).getLast? =
      some { role := Role.assistant,
             content := sconcat ["При", "вет!"], isStreaming := true } :=
  c5_token_concat
    [{ role := Role.user, content := "Привет" },
     { role := Role.assistant, content := "", isStreaming := true }]
    { role := Role.assistant, content := "", isStreaming := true }
    ["При", "вет!"] rfl rfl rfl rfl

end Lobanovo
